import Mathlib

/-!
Verification of the ytdlpWrapper job-orchestration core.

This file shallowly embeds the Go code of the repository:
* `src/src/utils.go`   — channel-URL cleaning (`CleanChannelURL`);
* `src/src/cli.go`     — the download-output callback of `RunHeadless`
  (title capture, progress parsing/de-duplication), the post-run
  cancellation/failure handling with `cleanupPartFiles`, and the playlist
  reconciler `ExtractPlaylistToDB`;
* `src/src/db.go`      — the store operations the reconciler uses
  (`VideoExistsInPlaylist`, `InsertPlaylistVideo`, `InsertPlaylist`,
  `UpdatePlaylistCounts`, `GetPlaylistByURL`).

Strings are Lean `String`s; Go's byte-oriented functions
(`strings.HasSuffix`, `strings.Index`, `strings.TrimSuffix`,
`path/filepath.Base`, `path/filepath.Ext`) are embedded as character-list
functions, which agree with the byte versions on well-formed UTF-8 input.
The SQLite store is embedded as in-memory lists of rows; `uuid.New()` is
embedded as an injective fresh-id generator driven by a counter.
-/

namespace YtdlpWrapper

/-! ## Go string primitives used by the embedded code -/

/-- `strings.HasSuffix s suf` (byte suffix test, = char suffix test on UTF-8). -/
def strHasSuffix (s suf : String) : Bool := suf.data.isSuffixOf s.data

/-- `strings.TrimSuffix s suf`: drop `suf` from the end of `s` when present. -/
def strTrimSuffix (s suf : String) : String :=
  if strHasSuffix s suf then ⟨s.data.take (s.data.length - suf.data.length)⟩ else s

/-- `strings.Index s "?"`: position of the first `'?'` in `s`, if any. -/
def idxOfQuery (s : String) : Option Nat := s.data.findIdx? (· = '?')

/-! ## `src/src/utils.go`: `CleanChannelURL` -/

/-- The fixed suffix set of `CleanChannelURL` (`utils.go` line 17). -/
def suffixList : List String :=
  ["/videos", "/shorts", "/streams", "/playlists", "/community", "/about"]

/-- Step 1 of `CleanChannelURL`: the `for … break` loop over `suffixList`
removes the first matching trailing suffix, and only that one
(`utils.go` lines 18–23). -/
def stripSuffixStage (u : String) : String :=
  match suffixList.find? (fun suf => strHasSuffix u suf) with
  | some suf => strTrimSuffix u suf
  | none => u

/-- Steps 1–3 of `CleanChannelURL`: suffix strip, then query strip, then one
trailing-slash strip (`utils.go` lines 16–31). -/
def cleanSteps (u : String) : String :=
  let u1 := stripSuffixStage u
  let u2 := match idxOfQuery u1 with
    | some i => (⟨u1.data.take i⟩ : String)
    | none => u1
  strTrimSuffix u2 "/"

/-- `CleanChannelURL` (`utils.go` lines 9–39): returns `""` for `""` or
`"NA"`, otherwise runs the cleaning steps and falls back to the original
input when they produce the empty string. -/
def cleanChannelURL (urlStr : String) : String :=
  if urlStr = "" ∨ urlStr = "NA" then ""
  else
    let r := cleanSteps urlStr
    if r = "" then urlStr else r

/-! ### Claims C4 and C5 -/

theorem stripSuffixStage_removes_at_most_one (u : String) :
    stripSuffixStage u = u ∨ ∃ suf ∈ suffixList, u = stripSuffixStage u ++ suf := by
  cases hfind : suffixList.find? (fun suf => strHasSuffix u suf) with
  | none =>
    left
    unfold stripSuffixStage
    rw [hfind]
  | some suf =>
    right
    have hstrip : stripSuffixStage u = strTrimSuffix u suf := by
      unfold stripSuffixStage
      rw [hfind]
    refine ⟨suf, List.mem_of_find?_eq_some hfind, ?_⟩
    have hsuf : strHasSuffix u suf = true := List.find?_some hfind
    have hsuffix : suf.data <:+ u.data := by
      simpa [strHasSuffix] using hsuf
    obtain ⟨t, ht⟩ := hsuffix
    have htrim : strTrimSuffix u suf = (⟨t⟩ : String) := by
      unfold strTrimSuffix
      rw [if_pos hsuf]
      have hlen : u.data.length - suf.data.length = t.length := by
        rw [← ht]; simp
      congr 1
      rw [hlen, ← ht, List.take_left]
    rw [hstrip, htrim]
    apply String.ext
    show u.data = ((⟨t⟩ : String) ++ suf).data
    rw [← ht]
    rfl

/-- C4 counterexample: the spec example `clean("https://x/@name/videos?feature=a")
= "https://x/@name"` fails on the code: suffix stripping runs before query
removal, so with the query attached `/videos` is not a suffix and survives. -/
theorem cleanChannelURL_spec_example_fails :
    cleanChannelURL "https://x/@name/videos?feature=a" ≠ "https://x/@name" := by
  decide

/-- C4 (amended): `CleanChannelURL` maps `"https://x/@name/videos?feature=a"`
to `"https://x/@name/videos"` (the query is stripped but the `/videos`
segment survives, because suffix stripping precedes query removal and the
suffix test fails while the query is attached); it maps `""` to `""` and the
already-clean `"https://x/@name"` to itself; and the suffix stage removes at
most one trailing suffix from the fixed set. -/
theorem cleanChannelURL_examples :
    cleanChannelURL "https://x/@name/videos?feature=a" = "https://x/@name/videos" ∧
    cleanChannelURL "" = "" ∧
    cleanChannelURL "https://x/@name" = "https://x/@name" ∧
    ∀ u : String, stripSuffixStage u = u ∨ ∃ suf ∈ suffixList, u = stripSuffixStage u ++ suf := by
  refine ⟨by decide, by decide, by decide, stripSuffixStage_removes_at_most_one⟩

/-- C5: for every non-empty input other than `"NA"`, `CleanChannelURL`
returns a non-empty string, and whenever the cleaning steps produce the
empty string it returns the pre-cleaning input unchanged. -/
theorem cleanChannelURL_nonempty (u : String) (h1 : u ≠ "") (h2 : u ≠ "NA") :
    cleanChannelURL u ≠ "" ∧ (cleanSteps u = "" → cleanChannelURL u = u) := by
  unfold cleanChannelURL
  rw [if_neg (by push_neg; exact ⟨h1, h2⟩)]
  by_cases h : cleanSteps u = ""
  · simp [h, h1]
  · simp [h]

/-- Witness for C5 at the concrete input `"/videos"`, whose cleaning steps
produce the empty string. -/
theorem cleanChannelURL_nonempty_witness :
    cleanChannelURL "/videos" ≠ "" ∧
      (cleanSteps "/videos" = "" → cleanChannelURL "/videos" = "/videos") :=
  cleanChannelURL_nonempty "/videos" (by decide) (by decide)

/-! ## `src/src/cli.go`: the output-line regular expressions

`destinationRegex = \[download\] Destination: (.+)` searches for the
leftmost occurrence of the literal `"[download] Destination: "`; the greedy
group `(.+)` then captures the whole (non-empty) remainder of the line.
`progressRegex = (\d+\.?\d*)%` and
`etaRegex = ETA\s+(\d{2}:\d{2}(?::\d{2})?)` are embedded as leftmost-first
matchers scanning start positions left to right, with the backtracking of
the greedy quantifiers resolved: a shortened `\d+`/`\d*`/`\s+` run is
always followed by another digit/whitespace character, so only the maximal
runs can be followed by the required literal. -/

/-- The remainder of `s` after the first (leftmost) occurrence of `pat`,
or `none` when `pat` does not occur in `s`. -/
def afterFirst (pat : List Char) : List Char → Option (List Char)
  | [] => if pat.isEmpty then some [] else none
  | c :: rest =>
    if pat.isPrefixOf (c :: rest) then some ((c :: rest).drop pat.length)
    else afterFirst pat rest

/-- `strings.Contains line pat`. -/
def containsSub (line pat : String) : Bool := (afterFirst pat.data line.data).isSome

/-- The capture group of `destinationRegex` on `line`, if the regex matches. -/
def destGroup (line : String) : Option String :=
  match afterFirst "[download] Destination: ".data line.data with
  | some r => if r.isEmpty then none else some (⟨r⟩ : String)
  | none => none

/-- Go `path/filepath.Base` (Unix rules): `"."` for the empty path, strip
trailing slashes, `"/"` when only slashes remain, else the last element. -/
def filepathBase (p : String) : String :=
  if p = "" then "."
  else
    let q := (p.data.reverse.dropWhile (· = '/')).reverse
    if q.isEmpty then "/"
    else (⟨(q.reverse.takeWhile (fun c => c ≠ '/')).reverse⟩ : String)

/-- Go `path/filepath.Ext`: the suffix of the final element starting at its
last dot, or `""` when the final element has no dot. -/
def filepathExt (p : String) : String :=
  let rev := p.data.reverse.takeWhile (fun c => c ≠ '/')
  match rev.findIdx? (· = '.') with
  | some i => (⟨(rev.take (i + 1)).reverse⟩ : String)
  | none => ""

/-- The title derived from a destination path in the download callback:
`strings.TrimSuffix(filepath.Base(fullPath), filepath.Ext(filename))`
(`cli.go` lines 435–439 of the callback). -/
def titleFromDest (fullPath : String) : String :=
  let filename := filepathBase fullPath
  strTrimSuffix filename (filepathExt filename)

/-- Whether `progressRegex` matches starting exactly at the head of `s`;
returns the capture group `(\d+\.?\d*)`. The greedy digit runs are maximal
(see the section comment). -/
def matchPercentAt (s : List Char) : Option (List Char) :=
  let d1 := s.takeWhile (·.isDigit)
  let r1 := s.dropWhile (·.isDigit)
  if d1.isEmpty then none
  else
    match r1 with
    | '.' :: r2 =>
      (match r2.dropWhile (·.isDigit) with
       | '%' :: _ => some (d1 ++ '.' :: r2.takeWhile (·.isDigit))
       | _ => none)
    | '%' :: _ => some d1
    | _ => none

/-- Leftmost match of `progressRegex`: scan start positions left to right. -/
def progressFind : List Char → Option (List Char)
  | [] => none
  | c :: rest =>
    match matchPercentAt (c :: rest) with
    | some g => some g
    | none => progressFind rest

/-- The capture group of `progressRegex` on `line` (e.g. `"42.5"`). -/
def progressGroup (line : String) : Option String :=
  (progressFind line.data).map (fun l => (⟨l⟩ : String))

/-- Go's regexp `\s` character class: `[\t\n\f\r ]`. -/
def wsChar (c : Char) : Bool :=
  c = ' ' ∨ c = '\t' ∨ c = '\n' ∨ c = '\x0c' ∨ c = '\r'

/-- Whether `etaRegex` matches starting exactly at the head of `s`; returns
the capture group `(\d{2}:\d{2}(?::\d{2})?)`, greedily including the
optional seconds field. -/
def matchEtaAt (s : List Char) : Option (List Char) :=
  match s with
  | 'E' :: 'T' :: 'A' :: rest =>
    let ws := rest.takeWhile wsChar
    let r := rest.dropWhile wsChar
    if ws.isEmpty then none
    else
      match r with
      | a :: b :: ':' :: c :: d :: tail =>
        if a.isDigit ∧ b.isDigit ∧ c.isDigit ∧ d.isDigit then
          match tail with
          | ':' :: e :: f :: _ =>
            if e.isDigit ∧ f.isDigit then some [a, b, ':', c, d, ':', e, f]
            else some [a, b, ':', c, d]
          | _ => some [a, b, ':', c, d]
        else none
      | _ => none
  | _ => none

/-- Leftmost match of `etaRegex`: scan start positions left to right. -/
def etaFind : List Char → Option (List Char)
  | [] => none
  | c :: rest =>
    match matchEtaAt (c :: rest) with
    | some g => some g
    | none => etaFind rest

/-- The capture group of `etaRegex` on `line` (e.g. `"00:05"`). -/
def etaGroup (line : String) : Option String :=
  (etaFind line.data).map (fun l => (⟨l⟩ : String))

/-- Helper for the lazy group of `titleRegex`: consume characters of `s`
(appending them to `acc`) until the stop literal is a prefix of the
remainder; return the accumulated (shortest) group. -/
def findStop (stopPat acc : List Char) : List Char → Option (List Char)
  | [] => if stopPat.isPrefixOf [] then some acc else none
  | c :: rest =>
    if stopPat.isPrefixOf (c :: rest) then some acc
    else findStop stopPat (acc ++ [c]) rest

/-- The capture group of `titleRegex = \[download\] (.+?) has already been
downloaded` (`cli.go` line 383): after the leftmost `"[download] "`, the
lazy group `(.+?)` captures the shortest non-empty run of characters
followed by the literal `" has already been downloaded"`. This regex is
declared in the source but never applied by any callback. -/
def alreadyGroup (line : String) : Option String :=
  match afterFirst "[download] ".data line.data with
  | some rest =>
    match rest with
    | [] => none
    | c :: r =>
      (findStop " has already been downloaded".data [c] r).map
        (fun l => (⟨l⟩ : String))
  | none => none

/-! ## The download callback of `RunHeadless` (`cli.go` lines 432–468)

The callback closes over two mutable locals, `videoTitle` and `lastOutput`;
they are the callback state. Each output line first goes through the
one-shot title capture, then through the progress branch, which emits a
console update only when the formatted composite string differs from the
last emission. -/

structure CBState where
  videoTitle : String
  lastOutput : String
deriving DecidableEq, Repr

def initCB : CBState := ⟨"", ""⟩

/-- The title-capture step of the callback (`cli.go` lines 434–442): only
when no title has been captured yet and `destinationRegex` matches. -/
def applyTitleStep (st : CBState) (line : String) : CBState :=
  if st.videoTitle = "" then
    match destGroup line with
    | some fullPath => { st with videoTitle := titleFromDest fullPath }
    | none => st
  else st

/-- The composite progress string the callback formats for a line
(`cli.go` lines 444–461): requires the line to contain `"[download]"` and
`"%"`, takes the progress group (else `""`) and the ETA group (else `""`),
and when the progress is non-empty builds
`"Progress: <p>%"` plus `" | ETA: <eta>"` when the ETA is non-empty. -/
def composedOutput (line : String) : Option String :=
  if containsSub line "[download]" ∧ containsSub line "%" then
    let progress := match progressGroup line with | some p => p | none => ""
    let eta := match etaGroup line with | some e => e | none => ""
    if progress ≠ "" then
      some ("Progress: " ++ progress ++ "%" ++
        (if eta ≠ "" then " | ETA: " ++ eta else ""))
    else none
  else none

/-- The de-duplicating emission guard of the callback
(`if output != lastOutput { print; lastOutput = output }`). -/
def emitStep (st1 : CBState) (co : Option String) : CBState × Option String :=
  match co with
  | some output =>
    if output ≠ st1.lastOutput then ({ st1 with lastOutput := output }, some output)
    else (st1, none)
  | none => (st1, none)

/-- One callback invocation: the title step, then the progress branch with
its de-duplicating emission guard. Returns the new state and the emission,
if any. -/
def processLine (st : CBState) (line : String) : CBState × Option String :=
  emitStep (applyTitleStep st line) (composedOutput line)

/-- Fold the callback over a list of output lines, collecting emissions. -/
def processLines (st : CBState) (lines : List String) : CBState × List String :=
  lines.foldl
    (fun acc line =>
      let r := processLine acc.1 line
      (r.1, acc.2 ++ (match r.2 with | some o => [o] | none => [])))
    (st, [])

/-! ### Callback lemmas, and claims C6, C7, C8 -/

theorem applyTitleStep_lastOutput (st : CBState) (line : String) :
    (applyTitleStep st line).lastOutput = st.lastOutput := by
  unfold applyTitleStep
  by_cases h : st.videoTitle = ""
  · rw [if_pos h]
    cases destGroup line <;> rfl
  · rw [if_neg h]

theorem emitStep_none (st1 : CBState) : emitStep st1 none = (st1, none) := rfl

theorem emitStep_some (st1 : CBState) (out : String) :
    emitStep st1 (some out) =
      if out ≠ st1.lastOutput then ({ st1 with lastOutput := out }, some out)
      else (st1, none) := rfl

theorem processLine_fst_videoTitle (st : CBState) (line : String) :
    ((processLine st line).1).videoTitle = (applyTitleStep st line).videoTitle := by
  unfold processLine
  cases hco : composedOutput line with
  | none => rw [emitStep_none]
  | some out =>
    rw [emitStep_some]
    by_cases hne : out ≠ (applyTitleStep st line).lastOutput
    · rw [if_pos hne]
    · rw [if_neg hne]

/-- An emission of the callback determines the composite string: it equals
the formatted output of the line, differs from the previous emission state,
and becomes the new `lastOutput`. -/
theorem processLine_emits (st : CBState) (line o : String)
    (h : (processLine st line).2 = some o) :
    composedOutput line = some o ∧ o ≠ st.lastOutput ∧
      ((processLine st line).1).lastOutput = o := by
  unfold processLine at h ⊢
  cases hco : composedOutput line with
  | none =>
    rw [hco, emitStep_none] at h
    exact absurd h (by simp)
  | some out =>
    rw [hco] at h
    rw [emitStep_some] at h ⊢
    by_cases hne : out ≠ (applyTitleStep st line).lastOutput
    · rw [if_pos hne] at h ⊢
      have ho : out = o := by simpa using h
      subst ho
      exact ⟨rfl, by rw [applyTitleStep_lastOutput] at hne; exact hne, rfl⟩
    · rw [if_neg hne] at h
      exact absurd h (by simp)

/-- C6: title capture from a destination line is correct and one-shot. The
two-line run shows the first destination line winning concretely; in
general, a state with no captured title and a line matched by
`destinationRegex` captures the base name with the extension stripped, and
a state with a captured (non-empty) title is never overwritten. -/
theorem title_capture_one_shot :
    (processLines initCB
        ["[download] Destination: /out/My Video.mp4",
         "[download] Destination: /out/Other.mkv"]).1.videoTitle = "My Video" ∧
    (∀ (st : CBState) (line g : String), st.videoTitle = "" → destGroup line = some g →
      ((processLine st line).1).videoTitle = titleFromDest g) ∧
    (∀ (st : CBState) (line : String), st.videoTitle ≠ "" →
      ((processLine st line).1).videoTitle = st.videoTitle) := by
  refine ⟨by decide, ?_, ?_⟩
  · intro st line g hempty hdest
    rw [processLine_fst_videoTitle]
    unfold applyTitleStep
    rw [if_pos hempty, hdest]
  · intro st line hne
    rw [processLine_fst_videoTitle]
    unfold applyTitleStep
    rw [if_neg hne]

/-- Witness for C6: capture at the concrete destination line, and
non-overwrite from a state that already holds the title `"T"`. -/
theorem title_capture_one_shot_witness :
    ((processLine initCB "[download] Destination: /out/My Video.mp4").1).videoTitle
        = titleFromDest "/out/My Video.mp4" ∧
    ((processLine ⟨"T", ""⟩ "[download] Destination: /out/Other.mkv").1).videoTitle = "T" :=
  ⟨title_capture_one_shot.2.1 initCB "[download] Destination: /out/My Video.mp4"
      "/out/My Video.mp4" rfl (by decide),
   title_capture_one_shot.2.2 ⟨"T", ""⟩ "[download] Destination: /out/Other.mkv"
      (by decide)⟩

/-- C7 counterexample: an `"has already been downloaded"` notice line does
NOT capture a title. Processing it from the initial state leaves the title
empty (the claim predicts the captured title `"My Video"`). -/
theorem already_downloaded_no_capture :
    ((processLine initCB
        "[download] /out/My Video.mp4 has already been downloaded").1).videoTitle
      = "" ∧
    titleFromDest "/out/My Video.mp4" = "My Video" := by
  constructor <;> decide

/-- C7 (amended): `titleRegex` is declared and matches the notice line
(capturing the path), but no callback applies it: a line not matched by
`destinationRegex` never changes the captured title. -/
theorem already_downloaded_regex_unused :
    alreadyGroup "[download] /out/My Video.mp4 has already been downloaded"
        = some "/out/My Video.mp4" ∧
    (∀ (st : CBState) (line : String), destGroup line = none →
      ((processLine st line).1).videoTitle = st.videoTitle) := by
  refine ⟨by decide, ?_⟩
  intro st line hdest
  rw [processLine_fst_videoTitle]
  unfold applyTitleStep
  by_cases h : st.videoTitle = ""
  · rw [if_pos h, hdest]
  · rw [if_neg h]

/-- Witness for C7's amended theorem at the concrete notice line. -/
theorem already_downloaded_regex_unused_witness :
    ((processLine initCB
        "[download] /out/My Video.mp4 has already been downloaded").1).videoTitle
      = initCB.videoTitle :=
  already_downloaded_regex_unused.2 initCB
    "[download] /out/My Video.mp4 has already been downloaded" (by decide)

/-- C8: the example line parses to progress `"42.5"` and ETA `"00:05"` and
emits the composite string; in general an emission only happens when the
formatted composite string differs from the previously emitted one, and an
identical subsequent line therefore produces no duplicate emission. -/
theorem progress_parse_dedup :
    progressGroup "[download]  42.5% of 10MiB ETA 00:05" = some "42.5" ∧
    etaGroup "[download]  42.5% of 10MiB ETA 00:05" = some "00:05" ∧
    (processLine initCB "[download]  42.5% of 10MiB ETA 00:05").2
        = some "Progress: 42.5% | ETA: 00:05" ∧
    (∀ (st : CBState) (line o : String), (processLine st line).2 = some o →
      o ≠ st.lastOutput ∧ ((processLine st line).1).lastOutput = o) ∧
    (∀ (st : CBState) (line o : String), (processLine st line).2 = some o →
      (processLine ((processLine st line).1) line).2 = none) := by
  refine ⟨by decide, by decide, by decide, ?_, ?_⟩
  · intro st line o h
    exact (processLine_emits st line o h).2
  · intro st line o h
    obtain ⟨hco, _, hlast⟩ := processLine_emits st line o h
    show (emitStep (applyTitleStep (processLine st line).1 line) (composedOutput line)).2 = none
    rw [hco, emitStep_some]
    rw [if_neg (by rw [applyTitleStep_lastOutput, hlast]; simp)]

/-- Witness for C8: the emitted line, re-processed immediately, is not
emitted again. -/
theorem progress_parse_dedup_witness :
    (processLine
        ((processLine initCB "[download]  42.5% of 10MiB ETA 00:05").1)
        "[download]  42.5% of 10MiB ETA 00:05").2 = none :=
  progress_parse_dedup.2.2.2.2 initCB "[download]  42.5% of 10MiB ETA 00:05"
    "Progress: 42.5% | ETA: 00:05" (by decide)

/-! ## `src/src/db.go`: the persistent store

The three tables are embedded as in-memory lists of rows. The schema
(`createTables`, `db.go` lines 97–150) declares PRIMARY KEY on `id` only:
there is no uniqueness constraint on `(playlist_id, video_id)` in
`playlist_videos`. `uuid.New().String()` is embedded as `idOf` applied to
a per-store counter: an injective generator of non-empty ids, which is
what the code relies on from UUIDs. Timestamps do not influence any claim
and are omitted. Count columns are Go `int`s that only ever hold
non-negative values (lengths and sums of counts); they are embedded as
`Nat`. -/

/-- A row of the `playlist_videos` table (`db.go` lines 131–144). -/
structure PVRow where
  rowId : String
  playlistId : String
  playlistName : String
  videoUrl : String
  videoTitle : String
  videoId : String
  channel : String
  channelUrl : String
  idx : Nat
deriving DecidableEq, Repr

/-- A row of the `playlists` table (`db.go` lines 117–128). -/
structure PlaylistRecord where
  id : String
  url : String
  title : String
  channel : String
  channelUrl : String
  totalVideos : Nat
  videosSaved : Nat
  videosDownloaded : Nat
deriving DecidableEq, Repr

/-- The store state: the generated-id counter and the two tables the
reconciler touches. -/
structure Store where
  nextId : Nat
  playlists : List PlaylistRecord
  playlistVideos : List PVRow
deriving DecidableEq, Repr

/-- The fresh-id generator standing in for `uuid.New().String()`:
injective and never the empty string. -/
def idOf (n : Nat) : String := ⟨List.replicate (n + 1) 'u'⟩

def emptyStore : Store := ⟨0, [], []⟩

/-- `DB.VideoExistsInPlaylist` (`db.go` lines 361–371):
`SELECT COUNT(*) FROM playlist_videos WHERE playlist_id = ? AND video_id = ?`
compared with 0. -/
def videoExistsInPlaylist (s : Store) (pid vid : String) : Bool :=
  s.playlistVideos.any (fun r => r.playlistId == pid && r.videoId == vid)

/-- `DB.InsertPlaylistVideo` (`db.go` lines 331–339): append one row with a
fresh id. The insert cannot violate the schema (the only constraint is the
fresh primary key), so it always succeeds. -/
def insertPlaylistVideo (s : Store)
    (pid name vurl vtitle vid ch churl : String) (index : Nat) : Store :=
  { s with
    nextId := s.nextId + 1,
    playlistVideos :=
      s.playlistVideos ++ [⟨idOf s.nextId, pid, name, vurl, vtitle, vid, ch, churl, index⟩] }

/-- `DB.InsertPlaylist` (`db.go` lines 277–293): append one playlist row
with a fresh id and `videos_downloaded = 0`, returning the id. The
`title == ""` fallback to `extractTitleFromURL` is unreachable from
`ExtractPlaylistToDB`, which always passes a non-empty title
(`"Unknown Playlist"` replaces the empty one), and is omitted. -/
def insertPlaylistRec (s : Store) (url title ch churl : String)
    (totalVideos videosSaved : Nat) : Store × String :=
  let pid := idOf s.nextId
  ({ s with
      nextId := s.nextId + 1,
      playlists := s.playlists ++ [⟨pid, url, title, ch, churl, totalVideos, videosSaved, 0⟩] },
   pid)

/-- `DB.UpdatePlaylistCounts` (`db.go` lines 295–301):
`UPDATE playlists SET total_videos = ?, videos_saved = ?, videos_downloaded = ? WHERE id = ?`. -/
def updatePlaylistCounts (s : Store) (pid : String)
    (total saved dl : Nat) : Store :=
  { s with
    playlists := s.playlists.map (fun p =>
      if p.id == pid then
        { p with totalVideos := total, videosSaved := saved, videosDownloaded := dl }
      else p) }

/-- `DB.GetPlaylistByURL` (`db.go` lines 317–329): the first row with the
given url, or `none` (`sql.ErrNoRows`). -/
def getPlaylistByURL (s : Store) (url : String) : Option PlaylistRecord :=
  s.playlists.find? (fun p => p.url == url)

/-- The raw SQL in the new-playlist branch of `ExtractPlaylistToDB`
(`cli.go` line 324):
`UPDATE playlist_videos SET playlist_id = ? WHERE video_id = ? AND playlist_id = ''`. -/
def reparentOne (s : Store) (pid vid : String) : Store :=
  { s with
    playlistVideos := s.playlistVideos.map (fun r =>
      if r.videoId == vid && r.playlistId == "" then { r with playlistId := pid }
      else r) }

/-! ## `src/src/ytdlp.go`: snapshot types, and the reconciler
(`ExtractPlaylistToDB`, `cli.go` lines 254–337) -/

/-- `VideoInfo` (`ytdlp.go` lines 127–133). -/
structure VideoInfo where
  url : String
  title : String
  id : String
  channel : String
  channelUrl : String
deriving DecidableEq, Repr

/-- `PlaylistInfo` (`ytdlp.go` lines 120–125). -/
structure PlaylistInfo where
  title : String
  channel : String
  channelUrl : String
  videos : List VideoInfo
deriving DecidableEq, Repr

/-- `for i, video := range info.Videos` pairs each video with its 0-based
position. -/
def withIdx (i : Nat) : List VideoInfo → List (Nat × VideoInfo)
  | [] => []
  | v :: rest => (i, v) :: withIdx (i + 1) rest

/-- The update-existing-playlist loop (`cli.go` lines 288–298): check
existence by `(playlistId, video.ID)`, insert only absent videos, count the
insertions in `newVideosAdded`. -/
def updateLoop (pid title : String) :
    Store → List (Nat × VideoInfo) → Nat → Store × Nat
  | s, [], n => (s, n)
  | s, (i, v) :: rest, n =>
    if videoExistsInPlaylist s pid v.id then updateLoop pid title s rest n
    else
      updateLoop pid title
        (insertPlaylistVideo s pid title v.url v.title v.id v.channel v.channelUrl (i + 1))
        rest (n + 1)

/-- The new-playlist insertion loop (`cli.go` lines 310–315): insert every
snapshot video with an empty owning playlist id, counting `savedCount`. -/
def insertLoop (title : String) :
    Store → List (Nat × VideoInfo) → Nat → Store × Nat
  | s, [], n => (s, n)
  | s, (i, v) :: rest, n =>
    insertLoop title
      (insertPlaylistVideo s "" title v.url v.title v.id v.channel v.channelUrl (i + 1))
      rest (n + 1)

/-- The re-parenting loop (`cli.go` lines 322–325): one raw UPDATE per
snapshot video. -/
def reparentAll (pid : String) (vs : List VideoInfo) (s : Store) : Store :=
  vs.foldl (fun st v => reparentOne st pid v.id) s

/-- `ExtractPlaylistToDB` (`cli.go` lines 254–337), from the point after
`ExtractPlaylist` returned the snapshot `info` for `urlStr`. The pair is
the full store after the call (the database keeps all mutations performed
before an error return) together with the call's result.
`insertPlaylistOk` selects whether the single fallible insert the code
checks — `db.InsertPlaylist` — succeeds; every other statement's error is
ignored or cannot occur (fresh primary keys). -/
def extractPlaylistToDB (urlStr : String) (info : PlaylistInfo)
    (insertPlaylistOk : Bool) (s : Store) : Store × Except String Unit :=
  if info.videos.length = 0 then (s, .error "no videos found")
  else
    let title := if info.title = "" then "Unknown Playlist" else info.title
    let totalVideos := info.videos.length
    match getPlaylistByURL s urlStr with
    | some existing =>
      let r := updateLoop existing.id title s (withIdx 0 info.videos) 0
      let currentSaved := existing.videosSaved + r.2
      (updatePlaylistCounts r.1 existing.id totalVideos currentSaved
        existing.videosDownloaded, .ok ())
    | none =>
      let r := insertLoop title s (withIdx 0 info.videos) 0
      if insertPlaylistOk then
        let ins := insertPlaylistRec r.1 urlStr title info.channel info.channelUrl
          totalVideos r.2
        (reparentAll ins.2 info.videos ins.1, .ok ())
      else (r.1, .error "failed to insert playlist")

/-! ### Reconciler lemmas -/

/-- The rows `insertLoop` creates: one per snapshot video, owned by the
empty playlist id, with consecutive fresh row ids and 1-based positions. -/
def newRows (t : String) (startId : Nat) : List (Nat × VideoInfo) → List PVRow
  | [] => []
  | (i, v) :: rest =>
    ⟨idOf startId, "", t, v.url, v.title, v.id, v.channel, v.channelUrl, i + 1⟩ ::
      newRows t (startId + 1) rest

theorem updateLoop_cons_pos {pid t : String} {s : Store} {i : Nat}
    {v : VideoInfo} {rest : List (Nat × VideoInfo)} {n : Nat}
    (h : videoExistsInPlaylist s pid v.id = true) :
    updateLoop pid t s ((i, v) :: rest) n = updateLoop pid t s rest n := by
  simp [updateLoop, h]

theorem updateLoop_cons_neg {pid t : String} {s : Store} {i : Nat}
    {v : VideoInfo} {rest : List (Nat × VideoInfo)} {n : Nat}
    (h : videoExistsInPlaylist s pid v.id = false) :
    updateLoop pid t s ((i, v) :: rest) n
      = updateLoop pid t
          (insertPlaylistVideo s pid t v.url v.title v.id v.channel v.channelUrl (i + 1))
          rest (n + 1) := by
  simp [updateLoop, h]

theorem insertLoop_cons {t : String} {s : Store} {i : Nat} {v : VideoInfo}
    {rest : List (Nat × VideoInfo)} {n : Nat} :
    insertLoop t s ((i, v) :: rest) n
      = insertLoop t
          (insertPlaylistVideo s "" t v.url v.title v.id v.channel v.channelUrl (i + 1))
          rest (n + 1) := rfl

theorem updateLoop_playlists (pid t : String) :
    ∀ (l : List (Nat × VideoInfo)) (s : Store) (n : Nat),
      (updateLoop pid t s l n).1.playlists = s.playlists := by
  intro l
  induction l with
  | nil => intro s n; rfl
  | cons p rest ih =>
    intro s n
    obtain ⟨i, v⟩ := p
    cases h : videoExistsInPlaylist s pid v.id with
    | true => rw [updateLoop_cons_pos h]; exact ih s n
    | false => rw [updateLoop_cons_neg h]; exact ih _ (n + 1)

theorem updateLoop_rows_append (pid t : String) :
    ∀ (l : List (Nat × VideoInfo)) (s : Store) (n : Nat),
      ∃ tail, (updateLoop pid t s l n).1.playlistVideos = s.playlistVideos ++ tail := by
  intro l
  induction l with
  | nil => intro s n; exact ⟨[], by simp [updateLoop]⟩
  | cons p rest ih =>
    intro s n
    obtain ⟨i, v⟩ := p
    cases h : videoExistsInPlaylist s pid v.id with
    | true => rw [updateLoop_cons_pos h]; exact ih s n
    | false =>
      rw [updateLoop_cons_neg h]
      obtain ⟨tail, htail⟩ :=
        ih (insertPlaylistVideo s pid t v.url v.title v.id v.channel v.channelUrl (i + 1)) (n + 1)
      refine ⟨⟨idOf s.nextId, pid, t, v.url, v.title, v.id, v.channel, v.channelUrl, i + 1⟩ :: tail, ?_⟩
      rw [htail]
      simp [insertPlaylistVideo]

theorem updateLoop_nextId_mono (pid t : String) :
    ∀ (l : List (Nat × VideoInfo)) (s : Store) (n : Nat),
      s.nextId ≤ (updateLoop pid t s l n).1.nextId := by
  intro l
  induction l with
  | nil => intro s n; exact Nat.le_refl _
  | cons p rest ih =>
    intro s n
    obtain ⟨i, v⟩ := p
    cases h : videoExistsInPlaylist s pid v.id with
    | true => rw [updateLoop_cons_pos h]; exact ih s n
    | false =>
      rw [updateLoop_cons_neg h]
      have h1 : s.nextId ≤
          (insertPlaylistVideo s pid t v.url v.title v.id v.channel v.channelUrl (i + 1)).nextId := by
        simp only [insertPlaylistVideo]
        omega
      exact Nat.le_trans h1 (ih _ (n + 1))

theorem updateLoop_counts_rows (pid t : String) :
    ∀ (l : List (Nat × VideoInfo)) (s : Store) (n : Nat),
      (updateLoop pid t s l n).1.playlistVideos.length + n
        = (updateLoop pid t s l n).2 + s.playlistVideos.length := by
  intro l
  induction l with
  | nil => intro s n; simp [updateLoop, Nat.add_comm]
  | cons p rest ih =>
    intro s n
    obtain ⟨i, v⟩ := p
    cases h : videoExistsInPlaylist s pid v.id with
    | true => rw [updateLoop_cons_pos h]; exact ih s n
    | false =>
      rw [updateLoop_cons_neg h]
      have := ih (insertPlaylistVideo s pid t v.url v.title v.id v.channel v.channelUrl (i + 1)) (n + 1)
      simp only [insertPlaylistVideo, List.length_append, List.length_cons,
        List.length_nil] at this ⊢
      omega

/-- Existence of a row is monotone under appending rows. -/
theorem videoExists_of_rows_append (s s2 : Store) (tail : List PVRow)
    (pid vid : String)
    (hrows : s2.playlistVideos = s.playlistVideos ++ tail)
    (h : videoExistsInPlaylist s pid vid = true) :
    videoExistsInPlaylist s2 pid vid = true := by
  unfold videoExistsInPlaylist at h ⊢
  rw [hrows, List.any_append, h, Bool.true_or]

theorem updateLoop_preserves_exists (pid t : String)
    (l : List (Nat × VideoInfo)) (s : Store) (n : Nat) (pid0 vid0 : String)
    (h : videoExistsInPlaylist s pid0 vid0 = true) :
    videoExistsInPlaylist (updateLoop pid t s l n).1 pid0 vid0 = true := by
  obtain ⟨tail, htail⟩ := updateLoop_rows_append pid t l s n
  exact videoExists_of_rows_append s _ tail pid0 vid0 htail h

/-- A freshly inserted row witnesses existence. -/
theorem insert_establishes_exists (s : Store)
    (pid name vurl vtitle vid ch churl : String) (index : Nat) :
    videoExistsInPlaylist (insertPlaylistVideo s pid name vurl vtitle vid ch churl index)
      pid vid = true := by
  unfold videoExistsInPlaylist insertPlaylistVideo
  rw [List.any_append]
  simp

/-- After the update loop, every video of the processed list exists in the
target playlist. -/
theorem updateLoop_establishes (pid t : String) :
    ∀ (l : List (Nat × VideoInfo)) (s : Store) (n : Nat),
      ∀ p ∈ l, videoExistsInPlaylist (updateLoop pid t s l n).1 pid p.2.id = true := by
  intro l
  induction l with
  | nil => intro s n p hp; cases hp
  | cons q rest ih =>
    intro s n p hp
    obtain ⟨i, v⟩ := q
    cases h : videoExistsInPlaylist s pid v.id with
    | true =>
      rw [updateLoop_cons_pos h]
      rcases List.mem_cons.mp hp with rfl | hmem
      · exact updateLoop_preserves_exists pid t rest s n pid v.id h
      · exact ih s n p hmem
    | false =>
      rw [updateLoop_cons_neg h]
      rcases List.mem_cons.mp hp with rfl | hmem
      · exact updateLoop_preserves_exists pid t rest _ (n + 1) pid v.id
          (insert_establishes_exists s pid t v.url v.title v.id v.channel v.channelUrl (i + 1))
      · exact ih _ (n + 1) p hmem

/-- When every listed video already exists, the update loop is a no-op. -/
theorem updateLoop_noop (pid t : String) :
    ∀ (l : List (Nat × VideoInfo)) (s : Store) (n : Nat),
      (∀ p ∈ l, videoExistsInPlaylist s pid p.2.id = true) →
      updateLoop pid t s l n = (s, n) := by
  intro l
  induction l with
  | nil => intro s n _; rfl
  | cons q rest ih =>
    intro s n hall
    obtain ⟨i, v⟩ := q
    have hv : videoExistsInPlaylist s pid v.id = true := hall (i, v) (List.mem_cons_self _ _)
    rw [updateLoop_cons_pos hv]
    exact ih s n (fun p hp => hall p (List.mem_cons_of_mem _ hp))

/-- Exact characterization of the insert loop. -/
theorem insertLoop_spec (t : String) :
    ∀ (l : List (Nat × VideoInfo)) (s : Store) (n : Nat),
      insertLoop t s l n =
        ({ s with
            nextId := s.nextId + l.length,
            playlistVideos := s.playlistVideos ++ newRows t s.nextId l },
         n + l.length) := by
  intro l
  induction l with
  | nil => intro s n; simp [insertLoop, newRows]
  | cons q rest ih =>
    intro s n
    obtain ⟨i, v⟩ := q
    rw [insertLoop_cons, ih]
    simp only [insertPlaylistVideo, newRows, List.length_cons]
    rw [Prod.mk.injEq]
    refine ⟨?_, by omega⟩
    rw [Store.mk.injEq]
    refine ⟨by omega, rfl, ?_⟩
    rw [List.append_assoc]
    rfl

theorem newRows_playlistId (t : String) :
    ∀ (l : List (Nat × VideoInfo)) (k : Nat), ∀ r ∈ newRows t k l, r.playlistId = "" := by
  intro l
  induction l with
  | nil => intro k r hr; cases hr
  | cons q rest ih =>
    intro k r hr
    obtain ⟨i, v⟩ := q
    rcases List.mem_cons.mp hr with rfl | hmem
    · rfl
    · exact ih (k + 1) r hmem

theorem newRows_videoIds (t : String) :
    ∀ (l : List (Nat × VideoInfo)) (k : Nat),
      (newRows t k l).map PVRow.videoId = l.map (fun p => p.2.id) := by
  intro l
  induction l with
  | nil => intro k; rfl
  | cons q rest ih =>
    intro k
    obtain ⟨i, v⟩ := q
    simp [newRows, ih (k + 1)]

/-- Every video of the list gets an empty-owner row from the insert loop. -/
theorem insertLoop_establishes (t : String) (l : List (Nat × VideoInfo))
    (s : Store) (n : Nat) (p : Nat × VideoInfo) (hp : p ∈ l) :
    videoExistsInPlaylist (insertLoop t s l n).1 "" p.2.id = true := by
  rw [insertLoop_spec]
  unfold videoExistsInPlaylist
  simp only [List.any_append, Bool.or_eq_true]
  right
  rw [List.any_eq_true]
  have hmem : p.2.id ∈ (newRows t s.nextId l).map PVRow.videoId := by
    rw [newRows_videoIds]
    exact List.mem_map.mpr ⟨p, hp, rfl⟩
  obtain ⟨r, hr, hid⟩ := List.mem_map.mp hmem
  refine ⟨r, hr, ?_⟩
  rw [newRows_playlistId t l s.nextId r hr, hid]
  simp

/-! ### Re-parenting lemmas -/

/-- The per-row effect of one raw re-parenting UPDATE. -/
def reparRowFn (pid vid : String) (r : PVRow) : PVRow :=
  if r.videoId == vid && r.playlistId == "" then { r with playlistId := pid } else r

/-- The accumulated per-row effect of the whole re-parenting loop over the
video-id set `ids`. -/
def reparFn (pid : String) (ids : List String) (r : PVRow) : PVRow :=
  if r.playlistId = "" ∧ r.videoId ∈ ids then { r with playlistId := pid } else r

theorem reparentOne_rows (s : Store) (pid vid : String) :
    (reparentOne s pid vid).playlistVideos
      = s.playlistVideos.map (reparRowFn pid vid) := rfl

theorem reparentOne_playlists (s : Store) (pid vid : String) :
    (reparentOne s pid vid).playlists = s.playlists := rfl

theorem reparentOne_nextId (s : Store) (pid vid : String) :
    (reparentOne s pid vid).nextId = s.nextId := rfl

theorem reparFn_comp (pid vid : String) (ids : List String) (hpid : pid ≠ "")
    (r : PVRow) : reparFn pid ids (reparRowFn pid vid r) = reparFn pid (vid :: ids) r := by
  unfold reparRowFn reparFn
  by_cases hvid : r.videoId = vid
  · by_cases hempty : r.playlistId = ""
    · simp [hvid, hempty, hpid]
    · simp [hvid, hempty]
  · by_cases hempty : r.playlistId = ""
    · by_cases hmem : r.videoId ∈ ids
      · simp [hvid, hempty, hmem]
      · simp [hvid, hempty, hmem]
    · simp [hvid, hempty]

theorem reparentAll_rows (pid : String) (hpid : pid ≠ "") :
    ∀ (vs : List VideoInfo) (s : Store),
      (reparentAll pid vs s).playlistVideos
        = s.playlistVideos.map (reparFn pid (vs.map (fun v => v.id))) := by
  intro vs
  induction vs with
  | nil =>
    intro s
    show s.playlistVideos = s.playlistVideos.map (reparFn pid [])
    have hid : ∀ r ∈ s.playlistVideos, reparFn pid ([] : List String) r = r := by
      intro r _
      unfold reparFn
      rw [if_neg (by simp)]
    rw [List.map_congr_left hid, List.map_id']
  | cons v rest ih =>
    intro s
    show (reparentAll pid rest (reparentOne s pid v.id)).playlistVideos = _
    rw [ih (reparentOne s pid v.id), reparentOne_rows, List.map_map]
    exact List.map_congr_left (fun r _ => reparFn_comp pid v.id _ hpid r)

theorem reparentAll_playlists (pid : String) :
    ∀ (vs : List VideoInfo) (s : Store),
      (reparentAll pid vs s).playlists = s.playlists := by
  intro vs
  induction vs with
  | nil => intro s; rfl
  | cons v rest ih => intro s; exact ih (reparentOne s pid v.id)

theorem reparentAll_nextId (pid : String) :
    ∀ (vs : List VideoInfo) (s : Store),
      (reparentAll pid vs s).nextId = s.nextId := by
  intro vs
  induction vs with
  | nil => intro s; rfl
  | cons v rest ih => intro s; exact ih (reparentOne s pid v.id)

/-! ### Branch-unfolding lemmas for the reconciler -/

theorem extractPlaylistToDB_update_eq {urlStr : String} {info : PlaylistInfo}
    {ok : Bool} {s : Store} {p : PlaylistRecord}
    (hne : info.videos.length ≠ 0) (hfound : getPlaylistByURL s urlStr = some p) :
    extractPlaylistToDB urlStr info ok s =
      (updatePlaylistCounts
        (updateLoop p.id (if info.title = "" then "Unknown Playlist" else info.title)
          s (withIdx 0 info.videos) 0).1
        p.id info.videos.length
        (p.videosSaved +
          (updateLoop p.id (if info.title = "" then "Unknown Playlist" else info.title)
            s (withIdx 0 info.videos) 0).2)
        p.videosDownloaded, .ok ()) := by
  unfold extractPlaylistToDB
  rw [if_neg hne, hfound]

theorem extractPlaylistToDB_new_fail_eq {urlStr : String} {info : PlaylistInfo}
    {s : Store}
    (hne : info.videos.length ≠ 0) (hnone : getPlaylistByURL s urlStr = none) :
    extractPlaylistToDB urlStr info false s =
      ((insertLoop (if info.title = "" then "Unknown Playlist" else info.title)
          s (withIdx 0 info.videos) 0).1,
       .error "failed to insert playlist") := by
  unfold extractPlaylistToDB
  rw [if_neg hne, hnone]
  rfl

theorem extractPlaylistToDB_new_ok_eq {urlStr : String} {info : PlaylistInfo}
    {s : Store}
    (hne : info.videos.length ≠ 0) (hnone : getPlaylistByURL s urlStr = none) :
    extractPlaylistToDB urlStr info true s =
      (reparentAll
        (insertPlaylistRec
          (insertLoop (if info.title = "" then "Unknown Playlist" else info.title)
            s (withIdx 0 info.videos) 0).1
          urlStr (if info.title = "" then "Unknown Playlist" else info.title)
          info.channel info.channelUrl info.videos.length
          (insertLoop (if info.title = "" then "Unknown Playlist" else info.title)
            s (withIdx 0 info.videos) 0).2).2
        info.videos
        (insertPlaylistRec
          (insertLoop (if info.title = "" then "Unknown Playlist" else info.title)
            s (withIdx 0 info.videos) 0).1
          urlStr (if info.title = "" then "Unknown Playlist" else info.title)
          info.channel info.channelUrl info.videos.length
          (insertLoop (if info.title = "" then "Unknown Playlist" else info.title)
            s (withIdx 0 info.videos) 0).2).1,
       .ok ()) := by
  unfold extractPlaylistToDB
  rw [if_neg hne, hnone]
  rfl

/-! ### `withIdx`, id-generator, and store-observation helpers -/

theorem withIdx_map_id :
    ∀ (vs : List VideoInfo) (k : Nat),
      (withIdx k vs).map (fun p => p.2.id) = vs.map VideoInfo.id := by
  intro vs
  induction vs with
  | nil => intro k; rfl
  | cons v rest ih => intro k; simp [withIdx, ih (k + 1)]

theorem mem_withIdx_snd {p : Nat × VideoInfo} :
    ∀ (vs : List VideoInfo) (k : Nat), p ∈ withIdx k vs → p.2 ∈ vs := by
  intro vs
  induction vs with
  | nil => intro k hp; cases hp
  | cons v rest ih =>
    intro k hp
    rcases List.mem_cons.mp hp with rfl | hmem
    · exact List.mem_cons_self _ _
    · exact List.mem_cons_of_mem _ (ih (k + 1) hmem)

theorem withIdx_mem {v : VideoInfo} :
    ∀ (vs : List VideoInfo) (k : Nat), v ∈ vs → ∃ i, (i, v) ∈ withIdx k vs := by
  intro vs
  induction vs with
  | nil => intro k hv; cases hv
  | cons w rest ih =>
    intro k hv
    rcases List.mem_cons.mp hv with rfl | hmem
    · exact ⟨k, List.mem_cons_self _ _⟩
    · obtain ⟨i, hi⟩ := ih (k + 1) hmem
      exact ⟨i, List.mem_cons_of_mem _ hi⟩

theorem idOf_ne_empty (n : Nat) : idOf n ≠ "" := by
  intro h
  have hdata := congrArg String.data h
  simp [idOf] at hdata

theorem idOf_inj {m n : Nat} (h : idOf m = idOf n) : m = n := by
  have hdata := congrArg String.data h
  simp only [idOf] at hdata
  have hl := congrArg List.length hdata
  simp [List.length_replicate] at hl
  omega

theorem updatePlaylistCounts_rows (s : Store) (pid : String)
    (total saved dl : Nat) :
    (updatePlaylistCounts s pid total saved dl).playlistVideos = s.playlistVideos := rfl

theorem updatePlaylistCounts_nextId (s : Store) (pid : String)
    (total saved dl : Nat) :
    (updatePlaylistCounts s pid total saved dl).nextId = s.nextId := rfl

theorem insertPlaylistRec_rows (s : Store) (url title ch churl : String)
    (total saved : Nat) :
    (insertPlaylistRec s url title ch churl total saved).1.playlistVideos
      = s.playlistVideos := rfl

theorem insertLoop_playlists (t : String) (l : List (Nat × VideoInfo))
    (s : Store) (n : Nat) :
    (insertLoop t s l n).1.playlists = s.playlists := by
  rw [insertLoop_spec]

theorem insertPlaylistRec_playlists (s : Store) (url title ch churl : String)
    (total saved : Nat) :
    (insertPlaylistRec s url title ch churl total saved).1.playlists
      = s.playlists ++ [⟨idOf s.nextId, url, title, ch, churl, total, saved, 0⟩] := rfl

theorem videoExists_updateCounts (s : Store) (pid : String)
    (total saved dl : Nat) (pid0 vid0 : String) :
    videoExistsInPlaylist (updatePlaylistCounts s pid total saved dl) pid0 vid0
      = videoExistsInPlaylist s pid0 vid0 := rfl

/-- `GetPlaylistByURL` after `UpdatePlaylistCounts`: the count update
preserves urls, so the lookup commutes with the per-row update map. -/
theorem getPlaylistByURL_update (s : Store) (pid url : String)
    (total saved dl : Nat) :
    getPlaylistByURL (updatePlaylistCounts s pid total saved dl) url
      = (getPlaylistByURL s url).map (fun p =>
          if p.id == pid then
            { p with totalVideos := total, videosSaved := saved, videosDownloaded := dl }
          else p) := by
  unfold getPlaylistByURL updatePlaylistCounts
  rw [List.find?_map]
  have hpred :
      ((fun p : PlaylistRecord => p.url == url) ∘ (fun p =>
        if p.id == pid then
          { p with totalVideos := total, videosSaved := saved, videosDownloaded := dl }
        else p))
      = (fun p : PlaylistRecord => p.url == url) := by
    funext q
    by_cases h : q.id == pid <;> simp [h, Function.comp]
  rw [hpred]

/-- The saved-count of the playlist row found by url: the observation the
idempotence claim talks about. -/
def savedCountByURL (s : Store) (url : String) : Option Nat :=
  (getPlaylistByURL s url).map (fun p => p.videosSaved)

/-! ### Claims C10 and C3 -/

/-- C10: in the insert-new-playlist branch, every snapshot video row is
inserted with an empty owning playlist id before the playlist record is
created; when creating the playlist record fails, the call returns an error
while the store keeps the already-inserted rows, all still owned by the
empty playlist id, and no playlist record is created — the branch is not
atomic on error. -/
theorem insert_branch_not_atomic (url : String) (info : PlaylistInfo)
    (s : Store) (hnone : getPlaylistByURL s url = none)
    (hne : info.videos ≠ []) :
    (extractPlaylistToDB url info false s).2 = .error "failed to insert playlist" ∧
    (extractPlaylistToDB url info false s).1.playlists = s.playlists ∧
    ∃ added,
      (extractPlaylistToDB url info false s).1.playlistVideos
          = s.playlistVideos ++ added ∧
      added.map PVRow.videoId = info.videos.map VideoInfo.id ∧
      (∀ r ∈ added, r.playlistId = "") := by
  have hlen : info.videos.length ≠ 0 := by simpa using hne
  rw [extractPlaylistToDB_new_fail_eq hlen hnone]
  rw [insertLoop_spec]
  refine ⟨rfl, rfl, newRows _ s.nextId (withIdx 0 info.videos), rfl, ?_, ?_⟩
  · rw [newRows_videoIds, withIdx_map_id]
  · exact newRows_playlistId _ _ s.nextId

/-- Witness for C10 at a concrete store and snapshot. -/
theorem insert_branch_not_atomic_witness :
    (extractPlaylistToDB "https://pl" ⟨"P", "C", "CU", [⟨"u1", "T1", "vid1", "C", "CU"⟩]⟩
        false emptyStore).2 = .error "failed to insert playlist" :=
  (insert_branch_not_atomic "https://pl" ⟨"P", "C", "CU", [⟨"u1", "T1", "vid1", "C", "CU"⟩]⟩
    emptyStore (by decide) (by decide)).1

/-- C3: the update-existing-playlist branch sets the playlist's saved-count
to its previous value plus exactly the number of rows inserted in the run
(not a recount), sets total-count to the snapshot length, and leaves
downloaded-count unchanged. -/
theorem update_branch_counts (url : String) (info : PlaylistInfo) (s : Store)
    (p : PlaylistRecord) (hfound : getPlaylistByURL s url = some p)
    (hne : info.videos ≠ []) :
    ∃ q, getPlaylistByURL ((extractPlaylistToDB url info true s).1) url = some q ∧
      q.videosSaved = p.videosSaved
        + ((extractPlaylistToDB url info true s).1.playlistVideos.length
            - s.playlistVideos.length) ∧
      q.totalVideos = info.videos.length ∧
      q.videosDownloaded = p.videosDownloaded := by
  have hlen : info.videos.length ≠ 0 := by simpa using hne
  rw [extractPlaylistToDB_update_eq hlen hfound]
  have hfind1 :
      getPlaylistByURL
        (updateLoop p.id (if info.title = "" then "Unknown Playlist" else info.title)
          s (withIdx 0 info.videos) 0).1 url = some p := by
    unfold getPlaylistByURL
    rw [updateLoop_playlists]
    exact hfound
  rw [getPlaylistByURL_update, hfind1]
  refine ⟨_, rfl, ?_, ?_, ?_⟩
  · simp only [Option.map_some, beq_self_eq_true, if_pos]
    rw [updatePlaylistCounts_rows]
    have hcount := updateLoop_counts_rows p.id
      (if info.title = "" then "Unknown Playlist" else info.title)
      (withIdx 0 info.videos) s 0
    omega
  · simp
  · simp

/-- Witness for C3 at a concrete store holding the playlist already. -/
theorem update_branch_counts_witness :
    ∃ q, getPlaylistByURL
        ((extractPlaylistToDB "https://pl"
            ⟨"P", "C", "CU", [⟨"u1", "T1", "vid1", "C", "CU"⟩]⟩ true
            ⟨1, [⟨idOf 0, "https://pl", "P", "C", "CU", 1, 1, 0⟩], []⟩).1) "https://pl"
        = some q ∧
      q.videosSaved = 1
        + (((extractPlaylistToDB "https://pl"
              ⟨"P", "C", "CU", [⟨"u1", "T1", "vid1", "C", "CU"⟩]⟩ true
              ⟨1, [⟨idOf 0, "https://pl", "P", "C", "CU", 1, 1, 0⟩], []⟩).1).playlistVideos.length
            - ([] : List PVRow).length) ∧
      q.totalVideos = 1 ∧
      q.videosDownloaded = 0 :=
  update_branch_counts "https://pl" ⟨"P", "C", "CU", [⟨"u1", "T1", "vid1", "C", "CU"⟩]⟩
    ⟨1, [⟨idOf 0, "https://pl", "P", "C", "CU", 1, 1, 0⟩], []⟩
    ⟨idOf 0, "https://pl", "P", "C", "CU", 1, 1, 0⟩ (by decide) (by decide)

/-! ### Claim C1: idempotence of reconciliation -/

/-- Re-parenting turns an empty-owner row for a listed video into an
existence witness for the new playlist id. -/
theorem reparentAll_establishes (pid : String) (hpid : pid ≠ "")
    (vs : List VideoInfo) (s : Store) (v : VideoInfo) (hv : v ∈ vs)
    (h : videoExistsInPlaylist s "" v.id = true) :
    videoExistsInPlaylist (reparentAll pid vs s) pid v.id = true := by
  unfold videoExistsInPlaylist at h ⊢
  rw [reparentAll_rows pid hpid]
  rw [List.any_eq_true] at h ⊢
  obtain ⟨r0, hr0, hmatch⟩ := h
  have hand := (Bool.and_eq_true _ _).mp hmatch
  have hpl : r0.playlistId = "" := eq_of_beq hand.1
  have hvid : r0.videoId = v.id := eq_of_beq hand.2
  refine ⟨reparFn pid (vs.map (fun w => w.id)) r0,
    List.mem_map_of_mem _ hr0, ?_⟩
  unfold reparFn
  rw [if_pos ⟨hpl, by rw [hvid]; exact List.mem_map_of_mem _ hv⟩]
  simp [hvid]

/-- After one reconcile run on a non-empty snapshot, a playlist row exists
at the url, and every snapshot video exists under its id. -/
theorem reconcile_run_establishes (url : String) (info : PlaylistInfo)
    (s : Store) (hlen : info.videos.length ≠ 0) :
    ∃ q, getPlaylistByURL ((extractPlaylistToDB url info true s).1) url = some q ∧
      ∀ v ∈ info.videos,
        videoExistsInPlaylist ((extractPlaylistToDB url info true s).1) q.id v.id
          = true := by
  cases hfind : getPlaylistByURL s url with
  | some p =>
    rw [extractPlaylistToDB_update_eq hlen hfind]
    have hfind1 :
        getPlaylistByURL
          (updateLoop p.id (if info.title = "" then "Unknown Playlist" else info.title)
            s (withIdx 0 info.videos) 0).1 url = some p := by
      unfold getPlaylistByURL
      rw [updateLoop_playlists]
      exact hfind
    rw [getPlaylistByURL_update, hfind1]
    refine ⟨_, rfl, ?_⟩
    intro v hv
    rw [videoExists_updateCounts]
    have hid :
        ((fun q : PlaylistRecord =>
          if q.id == p.id then
            { q with
                totalVideos := info.videos.length,
                videosSaved := p.videosSaved +
                  (updateLoop p.id
                    (if info.title = "" then "Unknown Playlist" else info.title)
                    s (withIdx 0 info.videos) 0).2,
                videosDownloaded := p.videosDownloaded }
          else q) p).id = p.id := by
      simp
    rw [hid]
    obtain ⟨i, hi⟩ := withIdx_mem info.videos 0 hv
    exact updateLoop_establishes p.id
      (if info.title = "" then "Unknown Playlist" else info.title)
      (withIdx 0 info.videos) s 0 (i, v) hi
  | none =>
    rw [extractPlaylistToDB_new_ok_eq hlen hfind]
    refine ⟨⟨idOf (insertLoop
        (if info.title = "" then "Unknown Playlist" else info.title)
        s (withIdx 0 info.videos) 0).1.nextId,
      url, (if info.title = "" then "Unknown Playlist" else info.title),
      info.channel, info.channelUrl, info.videos.length,
      (insertLoop (if info.title = "" then "Unknown Playlist" else info.title)
        s (withIdx 0 info.videos) 0).2, 0⟩, ?_, ?_⟩
    · unfold getPlaylistByURL
      rw [reparentAll_playlists, insertPlaylistRec_playlists, List.find?_append,
        insertLoop_playlists]
      have h1 : s.playlists.find? (fun p => p.url == url) = none := hfind
      rw [h1, Option.none_or]
      simp [List.find?]
    · intro v hv
      apply reparentAll_establishes _ (idOf_ne_empty _) _ _ v hv
      obtain ⟨i, hi⟩ := withIdx_mem info.videos 0 hv
      have hex := insertLoop_establishes
        (if info.title = "" then "Unknown Playlist" else info.title)
        (withIdx 0 info.videos) s 0 (i, v) hi
      unfold videoExistsInPlaylist at hex ⊢
      rw [insertPlaylistRec_rows]
      exact hex

/-- C1: reconciling the same non-empty snapshot twice in a row succeeds on
the second run, inserts zero new playlist-video rows on the second run, and
leaves the playlist's saved-count unchanged by the second run — for every
starting store state. -/
theorem reconcile_idempotent (url : String) (info : PlaylistInfo) (s : Store)
    (hne : info.videos ≠ []) :
    (extractPlaylistToDB url info true
        ((extractPlaylistToDB url info true s).1)).2 = .ok () ∧
    ((extractPlaylistToDB url info true
        ((extractPlaylistToDB url info true s).1)).1).playlistVideos
      = ((extractPlaylistToDB url info true s).1).playlistVideos ∧
    savedCountByURL ((extractPlaylistToDB url info true
        ((extractPlaylistToDB url info true s).1)).1) url
      = savedCountByURL ((extractPlaylistToDB url info true s).1) url := by
  have hlen : info.videos.length ≠ 0 := by simpa using hne
  obtain ⟨q, hq, hall⟩ := reconcile_run_establishes url info s hlen
  have hnoop :
      updateLoop q.id (if info.title = "" then "Unknown Playlist" else info.title)
        ((extractPlaylistToDB url info true s).1) (withIdx 0 info.videos) 0
      = ((extractPlaylistToDB url info true s).1, 0) :=
    updateLoop_noop q.id _ (withIdx 0 info.videos) _ 0
      (fun p hp => hall p.2 (mem_withIdx_snd _ 0 hp))
  rw [extractPlaylistToDB_update_eq hlen hq, hnoop]
  refine ⟨rfl, rfl, ?_⟩
  unfold savedCountByURL
  rw [getPlaylistByURL_update, hq]
  simp

/-- Witness for C1 starting from the empty store. -/
theorem reconcile_idempotent_witness :
    (extractPlaylistToDB "https://pl"
        ⟨"P", "C", "CU", [⟨"u1", "T1", "vid1", "C", "CU"⟩]⟩ true
        ((extractPlaylistToDB "https://pl"
            ⟨"P", "C", "CU", [⟨"u1", "T1", "vid1", "C", "CU"⟩]⟩ true emptyStore).1)).2
      = .ok () ∧
    ((extractPlaylistToDB "https://pl"
        ⟨"P", "C", "CU", [⟨"u1", "T1", "vid1", "C", "CU"⟩]⟩ true
        ((extractPlaylistToDB "https://pl"
            ⟨"P", "C", "CU", [⟨"u1", "T1", "vid1", "C", "CU"⟩]⟩ true emptyStore).1)).1).playlistVideos
      = ((extractPlaylistToDB "https://pl"
          ⟨"P", "C", "CU", [⟨"u1", "T1", "vid1", "C", "CU"⟩]⟩ true emptyStore).1).playlistVideos ∧
    savedCountByURL ((extractPlaylistToDB "https://pl"
        ⟨"P", "C", "CU", [⟨"u1", "T1", "vid1", "C", "CU"⟩]⟩ true
        ((extractPlaylistToDB "https://pl"
            ⟨"P", "C", "CU", [⟨"u1", "T1", "vid1", "C", "CU"⟩]⟩ true emptyStore).1)).1) "https://pl"
      = savedCountByURL ((extractPlaylistToDB "https://pl"
          ⟨"P", "C", "CU", [⟨"u1", "T1", "vid1", "C", "CU"⟩]⟩ true emptyStore).1) "https://pl" :=
  reconcile_idempotent "https://pl" ⟨"P", "C", "CU", [⟨"u1", "T1", "vid1", "C", "CU"⟩]⟩
    emptyStore (by decide)

/-! ### Claim C2: the dedup invariant -/

/-- One reconcile operation (url and fresh snapshot) applied to the store;
a run that errors out leaves whatever state the call produced. -/
def reconcileStep (s : Store) (run : String × PlaylistInfo) : Store :=
  (extractPlaylistToDB run.1 run.2 true s).1

/-- The store after a sequence of reconcile operations from the empty
store. -/
def reconcileRuns (runs : List (String × PlaylistInfo)) : Store :=
  runs.foldl reconcileStep emptyStore

/-- The dedup invariant: no two playlist-video rows share
`(playlistId, remoteVideoId)`. -/
def DedupProp (s : Store) : Prop :=
  s.playlistVideos.Pairwise
    (fun a b => ¬(a.playlistId = b.playlistId ∧ a.videoId = b.videoId))

instance dedupRelDecidable :
    DecidableRel (fun a b : PVRow =>
      ¬(a.playlistId = b.playlistId ∧ a.videoId = b.videoId)) :=
  fun _ _ => instDecidableNot

instance dedupPropDecidable (s : Store) : Decidable (DedupProp s) :=
  List.instDecidablePairwise _

/-- C2 counterexample: a single reconcile of a snapshot that repeats one
remote video id (allowed by the claim's quantification) takes the
insert-new-playlist branch, which performs no existence check and whose
schema has no `(playlist_id, video_id)` uniqueness constraint, producing
two rows with equal `(playlistId, remoteVideoId)`. -/
theorem dedup_invariant_fails :
    ¬ DedupProp (reconcileRuns
      [("https://pl", ⟨"P", "C", "CU",
        [⟨"u1", "T1", "vid1", "C", "CU"⟩, ⟨"u1", "T1", "vid1", "C", "CU"⟩]⟩)]) := by
  decide

/-- The inductive invariant: rows are deduplicated, and every owning
playlist id in rows and playlist records is a generated id below the
counter (in particular, never the empty string). -/
structure StoreInv (s : Store) : Prop where
  dedup : DedupProp s
  rowPid : ∀ r ∈ s.playlistVideos, ∃ k, k < s.nextId ∧ r.playlistId = idOf k
  plId : ∀ p ∈ s.playlists, ∃ k, k < s.nextId ∧ p.id = idOf k

theorem reparFn_videoId (pid : String) (ids : List String) (r : PVRow) :
    (reparFn pid ids r).videoId = r.videoId := by
  unfold reparFn
  by_cases h : r.playlistId = "" ∧ r.videoId ∈ ids
  · rw [if_pos h]
  · rw [if_neg h]

theorem reparFn_id_of_nonempty (pid : String) (ids : List String) (r : PVRow)
    (hne : r.playlistId ≠ "") : reparFn pid ids r = r := by
  unfold reparFn
  rw [if_neg (fun hc => hne hc.1)]

theorem reparFn_on_empty (pid : String) (ids : List String) (r : PVRow)
    (hempty : r.playlistId = "") (hmem : r.videoId ∈ ids) :
    reparFn pid ids r = { r with playlistId := pid } := by
  unfold reparFn
  rw [if_pos ⟨hempty, hmem⟩]

theorem newRows_vid_mem (t : String) (k : Nat) (vs : List VideoInfo) (r : PVRow)
    (hr : r ∈ newRows t k (withIdx 0 vs)) : r.videoId ∈ vs.map VideoInfo.id := by
  have hmem : r.videoId ∈ (newRows t k (withIdx 0 vs)).map PVRow.videoId :=
    List.mem_map_of_mem _ hr
  rwa [newRows_videoIds, withIdx_map_id] at hmem

/-- Rows whose remote video ids are pairwise distinct satisfy the dedup
relation. -/
theorem pairwise_dedup_of_nodup (rows : List PVRow)
    (h : (rows.map PVRow.videoId).Nodup) :
    rows.Pairwise (fun a b => ¬(a.playlistId = b.playlistId ∧ a.videoId = b.videoId)) := by
  rw [List.Nodup, List.pairwise_map] at h
  exact h.imp (fun hab hcon => hab hcon.2)

/-- The update loop preserves dedup and generated-row-owner bounds when the
target playlist id is itself generated. -/
theorem updateLoop_inv (t : String) :
    ∀ (l : List (Nat × VideoInfo)) (s : Store) (n : Nat) (k0 : Nat),
      k0 < s.nextId →
      DedupProp s →
      (∀ r ∈ s.playlistVideos, ∃ k, k < s.nextId ∧ r.playlistId = idOf k) →
      DedupProp (updateLoop (idOf k0) t s l n).1 ∧
      (∀ r ∈ (updateLoop (idOf k0) t s l n).1.playlistVideos,
        ∃ k, k < (updateLoop (idOf k0) t s l n).1.nextId ∧ r.playlistId = idOf k) := by
  intro l
  induction l with
  | nil => intro s n k0 hk hd hr; exact ⟨hd, hr⟩
  | cons q rest ih =>
    intro s n k0 hk hd hr
    obtain ⟨i, v⟩ := q
    cases h : videoExistsInPlaylist s (idOf k0) v.id with
    | true => rw [updateLoop_cons_pos h]; exact ih s n k0 hk hd hr
    | false =>
      rw [updateLoop_cons_neg h]
      apply ih _ (n + 1) k0
      · simp only [insertPlaylistVideo]
        omega
      · unfold DedupProp at hd ⊢
        simp only [insertPlaylistVideo]
        rw [List.pairwise_append]
        refine ⟨hd, by simp, ?_⟩
        intro a ha b hb
        rw [List.mem_singleton] at hb
        subst hb
        unfold videoExistsInPlaylist at h
        rw [List.any_eq_false] at h
        intro hcon
        apply h a ha
        simp only at hcon
        simp [hcon.1, hcon.2]
      · intro r hrow
        simp only [insertPlaylistVideo] at hrow ⊢
        rw [List.mem_append] at hrow
        rcases hrow with hold | hnew
        · obtain ⟨k, hk2, hpid⟩ := hr r hold
          exact ⟨k, by omega, hpid⟩
        · rw [List.mem_singleton] at hnew
          subst hnew
          exact ⟨k0, by omega, rfl⟩

/-- The insert-new-playlist branch preserves the invariant when the
snapshot has pairwise-distinct remote video ids. -/
theorem insert_branch_inv (url t0 ch cu : String) (vs : List VideoInfo)
    (s : Store) (hnodup : (vs.map VideoInfo.id).Nodup) (hinv : StoreInv s) :
    StoreInv (reparentAll
      (insertPlaylistRec (insertLoop t0 s (withIdx 0 vs) 0).1 url t0 ch cu
        vs.length (insertLoop t0 s (withIdx 0 vs) 0).2).2
      vs
      (insertPlaylistRec (insertLoop t0 s (withIdx 0 vs) 0).1 url t0 ch cu
        vs.length (insertLoop t0 s (withIdx 0 vs) 0).2).1) := by
  rw [insertLoop_spec]
  set L := (withIdx 0 vs).length with hL
  set NR := newRows t0 s.nextId (withIdx 0 vs) with hNR
  dsimp only
  rw [show (insertPlaylistRec
      ({ nextId := s.nextId + L, playlists := s.playlists,
         playlistVideos := s.playlistVideos ++ NR } : Store)
      url t0 ch cu vs.length (0 + L)).2 = idOf (s.nextId + L) from rfl]
  -- the generated playlist id
  have hrows :
      (reparentAll (idOf (s.nextId + L)) vs
        (insertPlaylistRec
          ({ s with nextId := s.nextId + L, playlistVideos := s.playlistVideos ++ NR })
          url t0 ch cu vs.length (0 + L)).1).playlistVideos
      = s.playlistVideos
        ++ NR.map (fun r => { r with playlistId := idOf (s.nextId + L) }) := by
    rw [reparentAll_rows _ (idOf_ne_empty _), insertPlaylistRec_rows]
    show (s.playlistVideos ++ NR).map
        (reparFn (idOf (s.nextId + L)) (vs.map (fun w => w.id))) = _
    rw [List.map_append]
    congr 1
    · have hid : ∀ r ∈ s.playlistVideos,
          reparFn (idOf (s.nextId + L)) (vs.map (fun w => w.id)) r = r := by
        intro r hr
        obtain ⟨k, _, hpid⟩ := hinv.rowPid r hr
        exact reparFn_id_of_nonempty _ _ r (by rw [hpid]; exact idOf_ne_empty k)
      rw [List.map_congr_left hid, List.map_id']
    · apply List.map_congr_left
      intro r hr
      exact reparFn_on_empty _ _ r (newRows_playlistId t0 _ s.nextId r hr)
        (newRows_vid_mem t0 s.nextId vs r hr)
  have hpls :
      (reparentAll (idOf (s.nextId + L)) vs
        (insertPlaylistRec
          ({ s with nextId := s.nextId + L, playlistVideos := s.playlistVideos ++ NR })
          url t0 ch cu vs.length (0 + L)).1).playlists
      = s.playlists
        ++ [⟨idOf (s.nextId + L), url, t0, ch, cu, vs.length, 0 + L, 0⟩] := by
    rw [reparentAll_playlists, insertPlaylistRec_playlists]
  have hnext :
      (reparentAll (idOf (s.nextId + L)) vs
        (insertPlaylistRec
          ({ s with nextId := s.nextId + L, playlistVideos := s.playlistVideos ++ NR })
          url t0 ch cu vs.length (0 + L)).1).nextId
      = s.nextId + L + 1 := by
    rw [reparentAll_nextId]
    rfl
  refine ⟨?_, ?_, ?_⟩
  · unfold DedupProp
    rw [hrows, List.pairwise_append]
    refine ⟨hinv.dedup, ?_, ?_⟩
    · apply pairwise_dedup_of_nodup
      rw [List.map_map]
      have hsame : ∀ r ∈ NR,
          (PVRow.videoId ∘ fun r => { r with playlistId := idOf (s.nextId + L) }) r
            = PVRow.videoId r := fun r _ => rfl
      rw [List.map_congr_left hsame]
      show ((newRows t0 s.nextId (withIdx 0 vs)).map PVRow.videoId).Nodup
      rw [newRows_videoIds, withIdx_map_id]
      exact hnodup
    · intro a ha b hb
      obtain ⟨k, hk, hpid⟩ := hinv.rowPid a ha
      obtain ⟨r0, _, hr0⟩ := List.mem_map.mp hb
      intro hcon
      have hbpid : b.playlistId = idOf (s.nextId + L) := by
        rw [← hr0]
      have : k = s.nextId + L := idOf_inj (by rw [← hpid, ← hbpid]; exact hcon.1)
      omega
  · intro r hrow
    rw [hrows] at hrow
    rw [hnext]
    rcases List.mem_append.mp hrow with hold | hnew
    · obtain ⟨k, hk, hpid⟩ := hinv.rowPid r hold
      exact ⟨k, by omega, hpid⟩
    · obtain ⟨r0, _, hr0⟩ := List.mem_map.mp hnew
      refine ⟨s.nextId + L, by omega, ?_⟩
      rw [← hr0]
  · intro p hp
    rw [hpls] at hp
    rw [hnext]
    rcases List.mem_append.mp hp with hold | hnew
    · obtain ⟨k, hk, hid⟩ := hinv.plId p hold
      exact ⟨k, by omega, hid⟩
    · rw [List.mem_singleton] at hnew
      subst hnew
      exact ⟨s.nextId + L, by omega, rfl⟩

/-- One reconcile operation preserves the invariant when every snapshot has
pairwise-distinct remote video ids. -/
theorem reconcileStep_inv (s : Store) (url : String) (info : PlaylistInfo)
    (hnodup : (info.videos.map VideoInfo.id).Nodup) (hinv : StoreInv s) :
    StoreInv ((extractPlaylistToDB url info true s).1) := by
  by_cases hlen : info.videos.length = 0
  · have hz : extractPlaylistToDB url info true s = (s, .error "no videos found") := by
      unfold extractPlaylistToDB
      rw [if_pos hlen]
    rw [hz]
    exact hinv
  cases hfind : getPlaylistByURL s url with
  | some p =>
    rw [extractPlaylistToDB_update_eq hlen hfind]
    dsimp only
    have hpmem : p ∈ s.playlists := List.mem_of_find?_eq_some hfind
    obtain ⟨k0, hk0, hpid⟩ := hinv.plId p hpmem
    rw [hpid]
    obtain ⟨hd, hrow⟩ := updateLoop_inv
      (if info.title = "" then "Unknown Playlist" else info.title)
      (withIdx 0 info.videos) s 0 k0 hk0 hinv.dedup hinv.rowPid
    refine ⟨hd, hrow, ?_⟩
    intro q hq
    have hpls :
        (updatePlaylistCounts
          (updateLoop (idOf k0)
            (if info.title = "" then "Unknown Playlist" else info.title)
            s (withIdx 0 info.videos) 0).1
          (idOf k0) info.videos.length
          (p.videosSaved +
            (updateLoop (idOf k0)
              (if info.title = "" then "Unknown Playlist" else info.title)
              s (withIdx 0 info.videos) 0).2)
          p.videosDownloaded).playlists
        = s.playlists.map (fun q =>
            if q.id == idOf k0 then
              { q with
                  totalVideos := info.videos.length,
                  videosSaved := p.videosSaved +
                    (updateLoop (idOf k0)
                      (if info.title = "" then "Unknown Playlist" else info.title)
                      s (withIdx 0 info.videos) 0).2,
                  videosDownloaded := p.videosDownloaded }
            else q) := by
      show (updateLoop (idOf k0)
          (if info.title = "" then "Unknown Playlist" else info.title)
          s (withIdx 0 info.videos) 0).1.playlists.map _ = _
      rw [updateLoop_playlists]
    rw [hpls] at hq
    obtain ⟨q0, hq0mem, hq0⟩ := List.mem_map.mp hq
    obtain ⟨k, hk, hid⟩ := hinv.plId q0 hq0mem
    have hmono := updateLoop_nextId_mono (idOf k0)
      (if info.title = "" then "Unknown Playlist" else info.title)
      (withIdx 0 info.videos) s 0
    refine ⟨k, ?_, ?_⟩
    · rw [updatePlaylistCounts_nextId]
      omega
    · rw [← hq0]
      split <;> simp [hid]
  | none =>
    rw [extractPlaylistToDB_new_ok_eq hlen hfind]
    exact insert_branch_inv url _ info.channel info.channelUrl info.videos s hnodup hinv

theorem emptyStore_inv : StoreInv emptyStore := by
  refine ⟨?_, ?_, ?_⟩
  · exact List.Pairwise.nil
  · intro r hr; cases hr
  · intro p hp; cases hp

theorem reconcileRuns_inv_aux :
    ∀ (runs : List (String × PlaylistInfo)) (s : Store),
      StoreInv s →
      (∀ r ∈ runs, (r.2.videos.map VideoInfo.id).Nodup) →
      StoreInv (runs.foldl reconcileStep s) := by
  intro runs
  induction runs with
  | nil => intro s hs _; exact hs
  | cons run rest ih =>
    intro s hs hall
    exact ih (reconcileStep s run)
      (reconcileStep_inv s run.1 run.2 (hall run (List.mem_cons_self _ _)) hs)
      (fun r hr => hall r (List.mem_cons_of_mem _ hr))

/-- C2 (amended): for every sequence of reconcile operations starting from
the empty store whose snapshots have pairwise-distinct remote video ids, no
two playlist-video rows share `(playlistId, remoteVideoId)`. (The original
claim, which also admits snapshots repeating a remote video id, fails: the
insert-new-playlist branch performs no existence check and the schema has
no uniqueness constraint on the pair.) -/
theorem dedup_invariant_nodup (runs : List (String × PlaylistInfo))
    (h : ∀ r ∈ runs, (r.2.videos.map VideoInfo.id).Nodup) :
    DedupProp (reconcileRuns runs) :=
  (reconcileRuns_inv_aux runs emptyStore emptyStore_inv h).dedup

/-- Witness for C2's amended theorem at a two-run sequence. -/
theorem dedup_invariant_nodup_witness :
    DedupProp (reconcileRuns
      [("https://pl", ⟨"P", "C", "CU",
        [⟨"u1", "T1", "vid1", "C", "CU"⟩, ⟨"u2", "T2", "vid2", "C", "CU"⟩]⟩),
       ("https://pl", ⟨"P", "C", "CU",
        [⟨"u1", "T1", "vid1", "C", "CU"⟩, ⟨"u3", "T3", "vid3", "C", "CU"⟩]⟩)]) :=
  dedup_invariant_nodup
    [("https://pl", ⟨"P", "C", "CU",
      [⟨"u1", "T1", "vid1", "C", "CU"⟩, ⟨"u2", "T2", "vid2", "C", "CU"⟩]⟩),
     ("https://pl", ⟨"P", "C", "CU",
      [⟨"u1", "T1", "vid1", "C", "CU"⟩, ⟨"u3", "T3", "vid3", "C", "CU"⟩]⟩)]
    (by decide)

/-! ## Cancellation and cleanup (`RunHeadless` tail, `cli.go` lines
470–496, and `cleanupPartFiles`, lines 512–539) -/

/-- A directory entry as seen by `os.ReadDir`. -/
structure DirEntry where
  name : String
  isDir : Bool
deriving DecidableEq, Repr

/-- The incomplete-artifact suffix test of `cleanupPartFiles`
(`cli.go` line 526). -/
def partFileSuffix (name : String) : Bool :=
  strHasSuffix name ".part" || strHasSuffix name ".ytdl" || strHasSuffix name ".temp"

/-- `cleanupPartFiles` (`cli.go` lines 512–539): remove every non-directory
entry whose name ends in `.part`, `.ytdl` or `.temp`. -/
def cleanupPartFiles (entries : List DirEntry) : List DirEntry :=
  entries.filter (fun e => e.isDir || !partFileSuffix e.name)

/-- The names `cleanupPartFiles` removes. -/
def removedNames (entries : List DirEntry) : List String :=
  (entries.filter (fun e => !e.isDir && partFileSuffix e.name)).map (fun e => e.name)

/-- The `pending|completed|failed|cancelled` status vocabulary
(`db.go` lines 18–23). -/
inductive JobStatus
  | completed
  | failed
  | pending
  | cancelled
deriving DecidableEq, Repr

/-- The durable effects of the tail of `RunHeadless`, in order. -/
inductive DBEvent
  | removedPartFiles (names : List String)
  | statusWrite (id : String) (status : JobStatus) (filePath : String) (errMsg : String)
deriving DecidableEq, Repr

/-- The tail of `RunHeadless` (`cli.go` lines 470–496): after
`DownloadWithCallback` returns `runErr` with the cancellation flag
`cancelled`, produce the ordered list of durable effects, the resulting
output-directory contents, and the function result. After an error return
`RunHeadless` performs no further effects, so the event list is complete
for the job. -/
def runHeadlessFinish (downloadID outPath : String) (entries : List DirEntry)
    (runErr : Option String) (cancelled : Bool) :
    List DBEvent × List DirEntry × Except String Unit :=
  match runErr with
  | some e =>
    if cancelled then
      ([.removedPartFiles (removedNames entries),
        .statusWrite downloadID .cancelled "" "Download cancelled by user"],
       cleanupPartFiles entries, .error "download cancelled")
    else
      ([.removedPartFiles (removedNames entries),
        .statusWrite downloadID .failed "" e],
       cleanupPartFiles entries, .error ("download failed: " ++ e))
  | none =>
    ([.statusWrite downloadID .completed outPath ""], entries, .ok ())

/-! ### Claim C9 -/

/-- C9: a cancelled run removes `.part`/`.ytdl`/`.temp` files before the
single status write, which records `cancelled` (not `failed`); the trace
contains no `completed` write for the job, and the call returns with an
error so no later write can occur; a non-cancelled failing run performs the
same cleanup and records `failed` with the underlying error text. -/
theorem cancel_cleanup_status (downloadID outPath e : String)
    (entries : List DirEntry) :
    runHeadlessFinish downloadID outPath entries (some e) true =
      ([.removedPartFiles (removedNames entries),
        .statusWrite downloadID .cancelled "" "Download cancelled by user"],
       cleanupPartFiles entries, .error "download cancelled") ∧
    (∀ ent ∈ cleanupPartFiles entries, ent.isDir = false →
      partFileSuffix ent.name = false) ∧
    (∀ ev ∈ (runHeadlessFinish downloadID outPath entries (some e) true).1,
      ∀ fp msg, ev ≠ .statusWrite downloadID .completed fp msg) ∧
    runHeadlessFinish downloadID outPath entries (some e) false =
      ([.removedPartFiles (removedNames entries),
        .statusWrite downloadID .failed "" e],
       cleanupPartFiles entries, .error ("download failed: " ++ e)) := by
  refine ⟨rfl, ?_, ?_, rfl⟩
  · intro ent hmem hdir
    unfold cleanupPartFiles at hmem
    have := List.of_mem_filter hmem
    simpa [hdir] using this
  · intro ev hmem fp msg
    simp only [runHeadlessFinish, if_pos, List.mem_cons, List.not_mem_nil,
      or_false] at hmem
    rcases hmem with rfl | rfl <;> intro hcontra <;> simp at hcontra

/-- Witness for C9 at a concrete directory listing. -/
theorem cancel_cleanup_status_witness :
    partFileSuffix (DirEntry.mk "video.mp4" false).name = false ∧
    (DBEvent.removedPartFiles ["clip.part"]
      ≠ .statusWrite "job1" .completed "/out" "") :=
  ⟨(cancel_cleanup_status "job1" "/out" "err"
      [⟨"clip.part", false⟩, ⟨"video.mp4", false⟩]).2.1
      ⟨"video.mp4", false⟩ (by decide) (by decide),
   (cancel_cleanup_status "job1" "/out" "err"
      [⟨"clip.part", false⟩, ⟨"video.mp4", false⟩]).2.2.1
      (.removedPartFiles ["clip.part"]) (by decide) "/out" ""⟩

end YtdlpWrapper
